import Mathlib

/-
  Verification of the goini INI-style configuration parser.

  The definitions below are a shallow embedding of the Go package `goini`
  (goini.go): physical lines are `List Char`, the line-oriented state
  machine `RawConfigParser` is explicit state passing, Go `error` values
  become explicit error variants, and Go maps become association lists
  (only lookups on them are observable; the declaration order of sections
  is kept, as the source does, in the separate `sectionNames` slice).
-/

namespace Goini

/-- Physical and logical lines are lists of characters. -/
abbrev Str := List Char

/-- Coercion from Lean string literals, used for concrete test inputs. -/
def chars (s : String) : Str := s.data

/-- The Latin-1 fragment of Go `unicode.IsSpace`, which is what
`strings.TrimSpace` strips: space, tab, newline, vertical tab, form feed,
carriage return, next-line (U+0085) and no-break space (U+00A0). -/
def goIsSpace (c : Char) : Bool :=
  c = ' ' || c = '\t' || c = '\n' || c = Char.ofNat 11 || c = Char.ofNat 12 ||
  c = '\r' || c = Char.ofNat 133 || c = Char.ofNat 160

/-- Go `strings.TrimSpace`: drop leading and trailing whitespace. -/
def trimSpace (s : Str) : Str :=
  ((s.dropWhile goIsSpace).reverse.dropWhile goIsSpace).reverse

/-- Go `strings.SplitN(s, sep, 2)` for a one-character separator:
`some (before, after)` when `sep` occurs (split at the first occurrence),
`none` when it does not (Go then returns a single part). -/
def splitOnce (c : Char) : Str → Option (Str × Str)
  | [] => none
  | x :: xs =>
    if x = c then some ([], xs)
    else
      match splitOnce c xs with
      | none => none
      | some (a, b) => some (x :: a, b)

/-- Lookup in an association list, modelling Go map indexing. -/
def lookupAssoc {β : Type} (l : List (Str × β)) (k : Str) : Option β :=
  match l with
  | [] => none
  | (q, b) :: rest => if q = k then some b else lookupAssoc rest k

/-- Update the entry of a key in an association list, modelling an in-place
mutation of the Go map value aliased under that key. -/
def updateAssoc {β : Type} (l : List (Str × β)) (k : Str) (f : β → β) :
    List (Str × β) :=
  match l with
  | [] => []
  | (q, b) :: rest =>
    if q = k then (q, f b) :: rest else (q, b) :: updateAssoc rest k f

/-- `type RawSection map[string][]string`: properties to ordered values. -/
abbrev RawSection := List (Str × List Str)

/-- `RawSection.addProperty`: `s[property] = append(s[property], value)`. -/
def addProperty (s : RawSection) (p v : Str) : RawSection :=
  match s with
  | [] => [(p, [v])]
  | (q, vs) :: rest =>
    if q = p then (q, vs ++ [v]) :: rest else (q, vs) :: addProperty rest p v

/-- `RawSection.GetPropertyValues`: all values of a property, nil if unset. -/
def GetPropertyValues (s : RawSection) (p : Str) : List Str :=
  match lookupAssoc s p with
  | none => []
  | some vs => vs

/-- `RawSection.Properties`: the keys that have been set at least once. -/
def Properties (s : RawSection) : List Str := s.map Prod.fst

/-- `type RawConfig`: the global section, the named sections, and the
section names in the order they appeared in the config file. -/
structure RawConfig where
  globalSection : RawSection
  sections : List (Str × RawSection)
  sectionNames : List Str
deriving DecidableEq, Repr

/-- `RawConfig.Sections()`: returns `c.sectionNames`. -/
def Sections (c : RawConfig) : List Str := c.sectionNames

/-- `RawConfig.Section(n)`: the section by name, or nil (`none`) if the
section was not defined. -/
def SectionByName (c : RawConfig) (n : Str) : Option RawSection :=
  lookupAssoc c.sections n

/-- The error values produced by the parser, one variant per
`fmt.Errorf`/`errors.New` site, each carrying the 1-based physical line
number (`cp.numLines`) interpolated into the Go message. -/
inductive ParseErr where
  | continuationIntoComment (n : Nat)
  | invalidSectionStart (n : Nat)
  | noSectionEnd (n : Nat)
  | trailingChars (n : Nat)
  | invalidProperty (n : Nat)
  | duplicateSection (name : Str) (n : Nat)
deriving DecidableEq, Repr

/-- `type RawConfigParser`.  In Go `currentSection` aliases either
`config.GlobalSection` or one entry of `config.sections`; here it is the
name of that entry (`none` for the global section). -/
structure RawConfigParser where
  config : RawConfig
  currentSection : Option Str
  currentLine : Str
  err : Option ParseErr
  numLines : Nat
deriving DecidableEq, Repr

/-- `NewRawConfigParser()`. -/
def NewRawConfigParser : RawConfigParser :=
  { config := { globalSection := [], sections := [], sectionNames := [] },
    currentSection := none, currentLine := [], err := none, numLines := 0 }

/-- The section the parser's `currentSection` pointer aliases. -/
def currentSectionOf (cp : RawConfigParser) : Option RawSection :=
  match cp.currentSection with
  | none => some cp.config.globalSection
  | some n => lookupAssoc cp.config.sections n

/-- `cp.currentSection.addProperty(p, v)`: mutate the aliased section. -/
def addToCurrent (cp : RawConfigParser) (p v : Str) : RawConfigParser :=
  match cp.currentSection with
  | none =>
    { cp with config :=
      { cp.config with
        globalSection := addProperty cp.config.globalSection p v } }
  | some n =>
    { cp with config :=
      { cp.config with
        sections := updateAssoc cp.config.sections n
          (fun s => addProperty s p v) } }

/-- `RawConfigParser.addSection`. -/
def addSection (cp : RawConfigParser) (name : Str) : RawConfigParser :=
  match lookupAssoc cp.config.sections name with
  | some _ =>
    { cp with err := some (.duplicateSection name cp.numLines) }
  | none =>
    { cp with
      currentSection := some name,
      config :=
        { cp.config with
          sections := cp.config.sections ++ [(name, [])],
          sectionNames := cp.config.sectionNames ++ [name] } }

/-- `RawConfigParser.parseSectionHeader`. -/
def parseSectionHeader (cp : RawConfigParser) (line : Str) : RawConfigParser :=
  if line.head? ≠ some '[' then
    { cp with err := some (.invalidSectionStart cp.numLines) }
  else
    match splitOnce ']' line.tail with
    | none => { cp with err := some (.noSectionEnd cp.numLines) }
    | some (name, rest) =>
      if rest ≠ [] then { cp with err := some (.trailingChars cp.numLines) }
      else addSection cp name

/-- `RawConfigParser.parseProperty`. -/
def parseProperty (cp : RawConfigParser) (line : Str) : RawConfigParser :=
  match splitOnce '=' line with
  | none => { cp with err := some (.invalidProperty cp.numLines) }
  | some (k, v) =>
    if k = [] then { cp with err := some (.invalidProperty cp.numLines) }
    else addToCurrent cp (trimSpace k) (trimSpace v)

/-- `RawConfigParser.parseLine`.  In Go the function also returns `cp.err`;
that value is recoverable from the returned state, so the embedding returns
only the state. -/
def parseLine (cp : RawConfigParser) (line : Str) : RawConfigParser :=
  match cp.err with
  | some _ => cp
  | none =>
    if line.head? = some ';' ∨ line.head? = some '#' then
      if cp.currentLine ≠ [] then
        { cp with err := some (.continuationIntoComment cp.numLines) }
      else cp
    else if line.getLast? = some '\\' then
      { cp with currentLine := cp.currentLine ++ line.dropLast }
    else
      let l := trimSpace (cp.currentLine ++ line)
      let cp1 := { cp with currentLine := ([] : Str) }
      if l = [] then cp1
      else if l.head? = some '[' then parseSectionHeader cp1 l
      else parseProperty cp1 l

/-- The error returned by `RawConfigParser.Parse`: the stored error when the
parser was already poisoned, a wrapped per-line error, or the
continuation-at-end-of-file error (the latter two carry `cp.numLines`). -/
inductive RunError where
  | prior (e : ParseErr)
  | lineError (n : Nat) (e : ParseErr)
  | continuationAtEof (n : Nat)
deriving DecidableEq, Repr

/-- The scanner loop of `RawConfigParser.Parse`: count each physical line,
parse it, and stop at the first error; at end of input a pending
continuation buffer is an error (which is not stored in `cp.err`). -/
def parseLines (cp : RawConfigParser) (ls : List Str) :
    RawConfigParser × Option RunError :=
  match ls with
  | [] =>
    if cp.currentLine ≠ [] then (cp, some (.continuationAtEof cp.numLines))
    else (cp, none)
  | l :: rest =>
    let cp1 := parseLine { cp with numLines := cp.numLines + 1 } l
    match cp1.err with
    | some e => (cp1, some (.lineError cp1.numLines e))
    | none => parseLines cp1 rest

/-- `RawConfigParser.Parse`, with the input stream already split into
physical lines (Go's `bufio.Scanner` strips the line terminators). -/
def Parse (cp : RawConfigParser) (ls : List Str) :
    RawConfigParser × Option RunError :=
  match cp.err with
  | some e => (cp, some (.prior e))
  | none => parseLines cp ls

/-- `RawConfigParser.Finish`: return the built config or the first recorded
error, and reset the parser. -/
def Finish (cp : RawConfigParser) :
    Except ParseErr RawConfig × RawConfigParser :=
  (match cp.err with
   | some e => Except.error e
   | none => Except.ok cp.config,
   NewRawConfigParser)

/-- `DecodeOptionKind`: `UniqueOption` / `MultiOption`. -/
inductive DecodeOptionKind where
  | uniqueOption
  | multiOption
deriving DecidableEq, Repr

/-- `type DecodeOption`.  The Go conversion routine
`Parse func(string, interface{}) error` mutates a caller-supplied
destination through an interface pointer; here the destination is a value
of type `σ` threaded explicitly, and the routine's `error` is `ε`. -/
structure DecodeOption (σ ε : Type) where
  kind : DecodeOptionKind
  usage : Str
  parse : Str → σ → Except ε σ

/-- `type DecodeOptionSet map[string]*DecodeOption`. -/
abbrev DecodeOptionSet (σ ε : Type) := List (Str × DecodeOption σ ε)

/-- The error values produced by `Decode`, one per `fmt.Errorf` site. -/
inductive DecodeErr (ε : Type) where
  | unexpectedProperty (p : Str)
  | cannotBeRepeated (p : Str)
  | parseFailure (p : Str) (e : ε)
deriving DecidableEq

/-- The inner `for _, value := range values` loop of `Decode`: feed each
value to the conversion routine in order, stopping at the first failure
(the destination keeps the mutations made so far). -/
def decodeValues {σ ε : Type} (f : Str → σ → Except ε σ) (vs : List Str)
    (s : σ) : σ × Option ε :=
  match vs with
  | [] => (s, none)
  | v :: rest =>
    match f v s with
    | Except.error e => (s, some e)
    | Except.ok s1 => decodeValues f rest s1

/-- The outer `for _, property := range section.Properties()` loop of
`Decode`, over an explicit list of property names. -/
def decodeGo {σ ε : Type} (dos : DecodeOptionSet σ ε) (props : List Str)
    (sec : RawSection) (s : σ) : σ × Option (DecodeErr ε) :=
  match props with
  | [] => (s, none)
  | p :: rest =>
    match lookupAssoc dos p with
    | none => (s, some (.unexpectedProperty p))
    | some opt =>
      if opt.kind = DecodeOptionKind.uniqueOption ∧
          (GetPropertyValues sec p).length ≠ 1 then
        (s, some (.cannotBeRepeated p))
      else
        match decodeValues opt.parse (GetPropertyValues sec p) s with
        | (s1, some e) => (s1, some (.parseFailure p e))
        | (s1, none) => decodeGo dos rest sec s1

/-- `DecodeOptionSet.Decode(section, dest)`. -/
def Decode {σ ε : Type} (dos : DecodeOptionSet σ ε) (sec : RawSection)
    (s : σ) : σ × Option (DecodeErr ε) :=
  decodeGo dos (Properties sec) sec s

/-
  Specification-side recomputation for the section-enumeration-order
  claim: first assemble the logical lines of the whole input in one pure
  phase, then read off the well-formed section headers in order.  This is
  compared against the single-pass stateful builder.
-/

/-- Phase 1: the logical lines of an input, given the pending buffer:
comment-first lines are dropped, backslash-terminated lines accumulate,
every other line emits the trimmed concatenation. -/
def assembleLines (buf : Str) : List Str → List Str
  | [] => []
  | l :: rest =>
    if l.head? = some ';' ∨ l.head? = some '#' then assembleLines buf rest
    else if l.getLast? = some '\\' then
      assembleLines (buf ++ l.dropLast) rest
    else trimSpace (buf ++ l) :: assembleLines [] rest

/-- Phase 2: the section name of a logical line when it is a well-formed
header `[name]`, and `none` otherwise. -/
def headerNameOf (l : Str) : Option Str :=
  if l.head? = some '[' then
    match splitOnce ']' l.tail with
    | some (name, []) => some name
    | _ => none
  else none

/-- The sequence of section names in the order their headers appear in the
input. -/
def sectionHeaderSequence (ls : List Str) : List Str :=
  (assembleLines [] ls).filterMap headerNameOf

/-
  Helper lemmas about the string primitives.
-/

theorem dropWhile_eq_self_of_head (p : Char → Bool) (s : Str)
    (h : ∀ c, s.head? = some c → p c = false) : s.dropWhile p = s := by
  cases s with
  | nil => rfl
  | cons a l => simp [List.dropWhile_cons, h a rfl]

theorem head?_dropWhile_false (p : Char → Bool) (s : Str) (c : Char)
    (h : (s.dropWhile p).head? = some c) : p c = false := by
  induction s with
  | nil => simp [List.dropWhile] at h
  | cons a l ih =>
    rw [List.dropWhile_cons] at h
    by_cases hp : p a = true
    · rw [if_pos hp] at h; exact ih h
    · rw [if_neg hp] at h
      simp only [List.head?_cons, Option.some.injEq] at h
      rw [← h]
      cases hpa : p a with
      | true => exact absurd hpa hp
      | false => rfl

theorem trimSpace_eq_self (s : Str)
    (h1 : ∀ c, s.head? = some c → goIsSpace c = false)
    (h2 : ∀ c, s.getLast? = some c → goIsSpace c = false) :
    trimSpace s = s := by
  unfold trimSpace
  rw [dropWhile_eq_self_of_head _ s h1]
  rw [dropWhile_eq_self_of_head _ s.reverse
    (fun c hc => h2 c (by rwa [List.head?_reverse] at hc))]
  exact List.reverse_reverse s

theorem head?_trimSpace_false (s : Str) (c : Char)
    (h : (trimSpace s).head? = some c) : goIsSpace c = false := by
  unfold trimSpace at h
  obtain ⟨t, ht⟩ := List.dropWhile_suffix (l := (s.dropWhile goIsSpace).reverse)
    goIsSpace
  have hu : (s.dropWhile goIsSpace).head? = some c := by
    have hs : s.dropWhile goIsSpace =
        ((s.dropWhile goIsSpace).reverse.dropWhile goIsSpace).reverse ++
          t.reverse := by
      calc s.dropWhile goIsSpace
          = (s.dropWhile goIsSpace).reverse.reverse :=
            (List.reverse_reverse _).symm
        _ = (t ++ (s.dropWhile goIsSpace).reverse.dropWhile goIsSpace).reverse
            := by rw [ht]
        _ = _ := by rw [List.reverse_append]
    rw [hs, List.head?_append, h]
    rfl
  exact head?_dropWhile_false goIsSpace s c hu

theorem trimSpace_ne_nil_of_head (k : Str) (c : Char)
    (hh : k.head? = some c) (hc : goIsSpace c = false) :
    trimSpace k ≠ [] := by
  unfold trimSpace
  intro h
  rw [List.reverse_eq_nil_iff, List.dropWhile_eq_nil_iff] at h
  cases k with
  | nil => simp at hh
  | cons a l =>
    simp only [List.head?_cons, Option.some.injEq] at hh
    rw [← hh] at hc
    have hdw : (a :: l).dropWhile goIsSpace = a :: l := by
      simp [List.dropWhile_cons, hc]
    rw [hdw] at h
    have hcs := h a (by simp)
    rw [hc] at hcs
    exact Bool.false_ne_true hcs

theorem splitOnce_sep_end (c : Char) (name : Str) (h : c ∉ name) :
    splitOnce c (name ++ [c]) = some (name, []) := by
  induction name with
  | nil => simp [splitOnce]
  | cons a l ih =>
    have ha : ¬(a = c) := fun hac => h (by rw [← hac]; exact List.mem_cons_self a l)
    have hl : c ∉ l := fun hcl => h (List.mem_cons_of_mem a hcl)
    simp only [List.cons_append, splitOnce, List.append_eq, if_neg ha, ih hl]

theorem splitOnce_head_cases (c : Char) (L k v : Str)
    (h : splitOnce c L = some (k, v)) : k = [] ∨ k.head? = L.head? := by
  cases L with
  | nil => simp [splitOnce] at h
  | cons x xs =>
    simp only [splitOnce] at h
    by_cases hx : x = c
    · rw [if_pos hx] at h
      simp only [Option.some.injEq, Prod.mk.injEq] at h
      exact Or.inl h.1.symm
    · rw [if_neg hx] at h
      cases hs : splitOnce c xs with
      | none => rw [hs] at h; simp at h
      | some ab =>
        rw [hs] at h
        obtain ⟨a, b⟩ := ab
        simp only [Option.some.injEq, Prod.mk.injEq] at h
        right
        rw [← h.1]
        simp

/-
  Helper lemmas about the association-list primitives.
-/

theorem lookupAssoc_updateAssoc {β : Type} (l : List (Str × β)) (k : Str)
    (f : β → β) :
    lookupAssoc (updateAssoc l k f) k = Option.map f (lookupAssoc l k) := by
  induction l with
  | nil => rfl
  | cons hd tl ih =>
    obtain ⟨q, b⟩ := hd
    by_cases hq : q = k
    · simp [updateAssoc, lookupAssoc, hq]
    · simp [updateAssoc, lookupAssoc, hq, ih]

theorem lookupAssoc_addProperty (s : RawSection) (p v : Str) :
    lookupAssoc (addProperty s p v) p =
      some (GetPropertyValues s p ++ [v]) := by
  induction s with
  | nil => simp [addProperty, GetPropertyValues, lookupAssoc]
  | cons hd tl ih =>
    obtain ⟨q, vs⟩ := hd
    by_cases hq : q = p
    · simp [addProperty, GetPropertyValues, lookupAssoc, hq]
    · simp [addProperty, lookupAssoc, hq, ih, GetPropertyValues]

theorem getPropertyValues_addProperty (s : RawSection) (p v : Str) :
    GetPropertyValues (addProperty s p v) p = GetPropertyValues s p ++ [v] := by
  rw [GetPropertyValues, lookupAssoc_addProperty]

/-
  Branch lemmas for `parseLine`.
-/

theorem parseLine_comment (cp : RawConfigParser) (c : Char) (cs : Str)
    (he : cp.err = none) (hb : cp.currentLine = [])
    (hc : c = ';' ∨ c = '#') :
    parseLine cp (c :: cs) = cp := by
  obtain ⟨cfg, cur, buf, e0, n⟩ := cp
  dsimp only at he hb
  subst he; subst hb
  unfold parseLine
  dsimp only
  rw [if_pos]
  · rw [if_neg (by simp)]
  · simp only [List.head?_cons, Option.some.injEq]
    exact hc

theorem parseLine_continuation (cp : RawConfigParser) (line : Str)
    (he : cp.err = none)
    (hcm : ¬(line.head? = some ';' ∨ line.head? = some '#'))
    (hl : line.getLast? = some '\\') :
    parseLine cp line =
      { cp with currentLine := cp.currentLine ++ line.dropLast } := by
  obtain ⟨cfg, cur, buf, e0, n⟩ := cp
  dsimp only at he
  subst he
  unfold parseLine
  dsimp only
  rw [if_neg hcm, if_pos hl]

theorem parseLine_header (cp : RawConfigParser) (name : Str)
    (he : cp.err = none) (hb : cp.currentLine = []) (hn : ']' ∉ name) :
    parseLine cp ('[' :: (name ++ [']'])) = addSection cp name := by
  obtain ⟨cfg, cur, buf, e0, n⟩ := cp
  dsimp only at he hb
  subst he; subst hb
  have hlast : ('[' :: (name ++ [']'])).getLast? = some ']' :=
    List.getLast?_concat ('[' :: name)
  have htrim : trimSpace ('[' :: (name ++ [']'])) = '[' :: (name ++ [']']) := by
    apply trimSpace_eq_self
    · intro c hcch
      simp only [List.head?_cons, Option.some.injEq] at hcch
      rw [← hcch]; rfl
    · intro c hcch
      rw [hlast] at hcch
      simp only [Option.some.injEq] at hcch
      rw [← hcch]; rfl
  unfold parseLine
  dsimp only
  rw [if_neg (by simp), if_neg (by rw [hlast]; simp)]
  dsimp only [List.nil_append]
  rw [htrim]
  rw [if_neg (by simp), if_pos (by simp)]
  unfold parseSectionHeader
  rw [if_neg (by simp)]
  dsimp only [List.tail_cons]
  rw [splitOnce_sep_end ']' name hn]
  dsimp only
  rw [if_neg (by simp)]

/-- Claim C1 (code bug, evaluated at the failing input): feeding a single
physical line that ends in a backslash makes `Parse` report the
continuation-at-end-of-file error, but that error is never stored in the
parser's sticky error slot, so finalizing via `Finish` in that state
returns the document with no error instead of the terminal error the
claim requires. -/
theorem continuation_at_eof_finish_returns_document :
    (Parse NewRawConfigParser [chars "key=value\\"]).2 =
      some (RunError.continuationAtEof 1) ∧
    (Parse NewRawConfigParser [chars "key=value\\"]).1.err = none ∧
    (Finish (Parse NewRawConfigParser [chars "key=value\\"]).1).1 =
      Except.ok (Parse NewRawConfigParser [chars "key=value\\"]).1.config :=
  ⟨rfl, rfl, rfl⟩

/-- Claim C2 (counterexample): a physical line whose first non-whitespace
character is ';' but whose first character is a space is not ignored —
the parser records an invalid-property error for it, refuting the claim
that such a line leaves the pass error-free. -/
theorem indented_comment_line_not_ignored :
    (Parse NewRawConfigParser [chars " ;a"]).2 =
      some (RunError.lineError 1 (ParseErr.invalidProperty 1)) ∧
    (Parse NewRawConfigParser [chars " ;a"]).1.err =
      some (ParseErr.invalidProperty 1) :=
  ⟨rfl, rfl⟩

/-- Claim C2 (amended): a physical line whose FIRST CHARACTER is ';' or
'#', fed when no continuation is pending and no error is recorded, is
ignored entirely — the parser state is unchanged: no document mutation,
no error, and the continuation buffer stays empty. -/
theorem comment_first_char_line_ignored (cp : RawConfigParser) (c : Char)
    (cs : Str) (he : cp.err = none) (hb : cp.currentLine = [])
    (hc : c = ';' ∨ c = '#') :
    parseLine cp (c :: cs) = cp :=
  parseLine_comment cp c cs he hb hc

/-- Witness for the amended claim C2 at a concrete comment line. -/
theorem comment_first_char_line_ignored_witness :
    parseLine NewRawConfigParser (';' :: chars " x=1") = NewRawConfigParser :=
  comment_first_char_line_ignored NewRawConfigParser ';' (chars " x=1") rfl rfl
    (Or.inl rfl)

/-- Claim C10: a physical line whose first character is ';' or '#' is
classified as a comment before the trailing-backslash test: with no
continuation pending it is discarded whole even when it ends in a
backslash, and nothing is added to the continuation buffer. -/
theorem comment_test_precedes_continuation_test (cp : RawConfigParser)
    (c : Char) (cs : Str) (he : cp.err = none) (hb : cp.currentLine = [])
    (hc : c = ';' ∨ c = '#') (hl : (c :: cs).getLast? = some '\\') :
    parseLine cp (c :: cs) = cp ∧
    (parseLine cp (c :: cs)).currentLine = [] := by
  have h := parseLine_comment cp c cs he hb hc
  exact ⟨h, by rw [h, hb]⟩

/-- Witness for claim C10 at a concrete backslash-terminated comment. -/
theorem comment_test_precedes_continuation_test_witness :
    parseLine NewRawConfigParser (';' :: chars "x\\") = NewRawConfigParser ∧
    (parseLine NewRawConfigParser (';' :: chars "x\\")).currentLine = [] :=
  comment_test_precedes_continuation_test NewRawConfigParser ';' (chars "x\\")
    rfl rfl (Or.inl rfl) rfl

/-- Claim C6 (counterexample): a physical line ending in a backslash whose
first character is ';' is NOT appended to the continuation buffer — the
comment test fires first and the line is discarded whole, refuting the
claim for every backslash-terminated physical line. -/
theorem comment_continuation_line_not_buffered :
    (parseLine NewRawConfigParser (chars ";x\\")).currentLine = [] ∧
    ¬((parseLine NewRawConfigParser (chars ";x\\")).currentLine =
        NewRawConfigParser.currentLine ++ (chars ";x\\").dropLast) :=
  ⟨rfl, by decide⟩

/-- Claim C6 (amended): for every physical line whose last character is a
backslash and whose first character is not ';' or '#', fed without a
recorded error: the backslash is dropped, the remainder is appended
directly onto the pending continuation buffer with no separator, and
nothing else in the state changes (no record is emitted); this holds in
any state, in particular on the very first line of the stream. -/
theorem continuation_appends_to_buffer (cp : RawConfigParser) (c : Char)
    (cs : Str) (he : cp.err = none) (hc1 : c ≠ ';') (hc2 : c ≠ '#')
    (hl : (c :: cs).getLast? = some '\\') :
    parseLine cp (c :: cs) =
      { cp with currentLine := cp.currentLine ++ (c :: cs).dropLast } := by
  apply parseLine_continuation cp (c :: cs) he _ hl
  simp only [List.head?_cons, Option.some.injEq]
  rintro (h | h)
  · exact hc1 h
  · exact hc2 h

/-- Witness for the amended claim C6: the very first line of a stream. -/
theorem continuation_appends_to_buffer_witness :
    parseLine NewRawConfigParser ('a' :: chars "\\") =
      { NewRawConfigParser with
        currentLine := NewRawConfigParser.currentLine ++
          ('a' :: chars "\\").dropLast } :=
  continuation_appends_to_buffer NewRawConfigParser 'a' (chars "\\") rfl
    (by decide) (by decide) rfl

/-- Claim C4 (counterexample): after an error is recorded, subsequent
feeds do NOT keep counting physical lines — feeding one more line to the
poisoned pass leaves the line counter at 1 instead of advancing it to 2,
refuting the claim that poisoned feeds still count lines. -/
theorem poisoned_pass_freezes_line_count :
    (Parse NewRawConfigParser [chars "key"]).1.err =
      some (ParseErr.invalidProperty 1) ∧
    (Parse (Parse NewRawConfigParser [chars "key"]).1 [chars "a=b"]).1.numLines
      = 1 ∧
    ¬((Parse (Parse NewRawConfigParser [chars "key"]).1
        [chars "a=b"]).1.numLines = 2) :=
  ⟨rfl, rfl, by decide⟩

/-- Claim C4 (amended): once an error has been recorded the pass is
poisoned: every subsequent feed performs no mutation at all — the
document, buffer and line counter are all frozen — and reports the stored
error, and `Finish` surfaces exactly the first recorded error (no later
error can replace it since the state no longer changes). -/
theorem poisoned_pass_inert (cp : RawConfigParser) (e : ParseErr)
    (ls : List Str) (he : cp.err = some e) :
    Parse cp ls = (cp, some (RunError.prior e)) ∧
    (∀ l, parseLine cp l = cp) ∧
    (Finish cp).1 = Except.error e := by
  refine ⟨?_, ?_, ?_⟩
  · unfold Parse; rw [he]
  · intro l; unfold parseLine; rw [he]
  · unfold Finish; rw [he]

/-- Witness for the amended claim C4 at a concretely poisoned parser. -/
theorem poisoned_pass_inert_witness :
    Parse (Parse NewRawConfigParser [chars "key"]).1 [chars "x=y"] =
      ((Parse NewRawConfigParser [chars "key"]).1,
        some (RunError.prior (ParseErr.invalidProperty 1))) ∧
    (Finish (Parse NewRawConfigParser [chars "key"]).1).1 =
      Except.error (ParseErr.invalidProperty 1) :=
  ⟨(poisoned_pass_inert (Parse NewRawConfigParser [chars "key"]).1
      (ParseErr.invalidProperty 1) [chars "x=y"] rfl).1,
   (poisoned_pass_inert (Parse NewRawConfigParser [chars "key"]).1
      (ParseErr.invalidProperty 1) [chars "x=y"] rfl).2.2⟩

/-- Claim C3 (counterexample): the input consisting of the single line
`[]` is accepted by a full parse pass — `Parse` reports no error and
`Finish` yields the document — yet the resulting document contains a
section whose name is the empty string, refuting the claim that accepted
documents never contain an empty section name. -/
theorem empty_section_name_accepted :
    (Parse NewRawConfigParser [chars "[]"]).2 = none ∧
    (Parse NewRawConfigParser [chars "[]"]).1.config.sectionNames =
      [([] : Str)] ∧
    (Finish (Parse NewRawConfigParser [chars "[]"]).1).1 =
      Except.ok (Parse NewRawConfigParser [chars "[]"]).1.config :=
  ⟨rfl, rfl, rfl⟩

/-- Claim C3 (amended): a section header whose brackets enclose the empty
string is accepted without error whenever no section of that (empty) name
exists yet: it creates a new empty section with the empty name, appends
the empty name to the declaration order, and makes it current. -/
theorem empty_header_creates_empty_named_section (cp : RawConfigParser)
    (he : cp.err = none) (hb : cp.currentLine = [])
    (hnew : lookupAssoc cp.config.sections [] = none) :
    parseLine cp (chars "[]") =
      { cp with
        currentSection := some ([] : Str),
        config := { cp.config with
          sections := cp.config.sections ++ [([], [])],
          sectionNames := cp.config.sectionNames ++ [[]] } } := by
  show parseLine cp ('[' :: (([] : Str) ++ [']'])) = _
  rw [parseLine_header cp [] he hb (by simp)]
  unfold addSection
  rw [hnew]

/-- Witness for the amended claim C3 on the fresh parser. -/
theorem empty_header_creates_empty_named_section_witness :
    parseLine NewRawConfigParser (chars "[]") =
      { NewRawConfigParser with
        currentSection := some ([] : Str),
        config := { NewRawConfigParser.config with
          sections := NewRawConfigParser.config.sections ++ [([], [])],
          sectionNames := NewRawConfigParser.config.sectionNames ++ [[]] } } :=
  empty_header_creates_empty_named_section NewRawConfigParser rfl rfl rfl

/-- Claim C7: a well-formed section header logical line `[name]` either
creates a new empty section with that name, appends the name to the
declaration order and makes the section current (when the name is new),
or records a duplicate-section error and leaves the document — its
sections, names and properties — completely unchanged (when a section of
that name already exists). -/
theorem section_header_creates_or_rejects (cp : RawConfigParser)
    (name : Str) (he : cp.err = none) (hb : cp.currentLine = [])
    (hn : ']' ∉ name) :
    (lookupAssoc cp.config.sections name = none →
      parseLine cp ('[' :: (name ++ [']'])) =
        { cp with
          currentSection := some name,
          config := { cp.config with
            sections := cp.config.sections ++ [(name, [])],
            sectionNames := cp.config.sectionNames ++ [name] } }) ∧
    (∀ s0, lookupAssoc cp.config.sections name = some s0 →
      parseLine cp ('[' :: (name ++ [']'])) =
        { cp with
          err := some (ParseErr.duplicateSection name cp.numLines) }) := by
  constructor
  · intro h
    rw [parseLine_header cp name he hb hn]
    unfold addSection
    rw [h]
  · intro s0 h
    rw [parseLine_header cp name he hb hn]
    unfold addSection
    rw [h]

/-- Witness for claim C7: a fresh header creates the section, repeating
the same header is rejected as a duplicate. -/
theorem section_header_creates_or_rejects_witness :
    parseLine NewRawConfigParser ('[' :: (chars "s" ++ [']'])) =
      { NewRawConfigParser with
        currentSection := some (chars "s"),
        config := { NewRawConfigParser.config with
          sections := NewRawConfigParser.config.sections ++ [(chars "s", [])],
          sectionNames := NewRawConfigParser.config.sectionNames ++
            [chars "s"] } } ∧
    parseLine (parseLine NewRawConfigParser ('[' :: (chars "s" ++ [']'])))
        ('[' :: (chars "s" ++ [']'])) =
      { parseLine NewRawConfigParser ('[' :: (chars "s" ++ [']'])) with
        err := some (ParseErr.duplicateSection (chars "s")
          (parseLine NewRawConfigParser
            ('[' :: (chars "s" ++ [']']))).numLines) } :=
  ⟨(section_header_creates_or_rejects NewRawConfigParser (chars "s") rfl rfl
      (by decide)).1 rfl,
   (section_header_creates_or_rejects
      (parseLine NewRawConfigParser ('[' :: (chars "s" ++ [']'])))
      (chars "s") rfl rfl (by decide)).2 [] rfl⟩

/-- The effect of `cp.currentSection.addProperty(p, v)` on the section the
parser's current-section pointer aliases. -/
theorem addToCurrent_spec (cp : RawConfigParser) (s0 : RawSection)
    (p v : Str) (hsec : currentSectionOf cp = some s0) :
    (addToCurrent cp p v).err = cp.err ∧
    (addToCurrent cp p v).currentLine = cp.currentLine ∧
    currentSectionOf (addToCurrent cp p v) = some (addProperty s0 p v) := by
  unfold currentSectionOf at hsec ⊢
  unfold addToCurrent
  cases hcur : cp.currentSection with
  | none =>
    rw [hcur] at hsec
    dsimp only at hsec
    simp only [Option.some.injEq] at hsec
    refine ⟨rfl, rfl, ?_⟩
    dsimp only
    rw [hsec]
  | some nm =>
    rw [hcur] at hsec
    dsimp only at hsec
    refine ⟨rfl, rfl, ?_⟩
    dsimp only
    rw [lookupAssoc_updateAssoc, hsec]
    rfl

/-- Claim C5: for a logical line that is non-blank, not a comment, not a
continuation and not a section header: if it contains `=`, the text
before the first `=` (trimmed, required non-empty) becomes the key and
the trimmed text after it is appended to that key's value list in the
current section with no error; if it contains no `=` or the key is
empty, an invalid-property error is recorded and the document is
unchanged. -/
theorem property_line_spec (cp : RawConfigParser) (line : Str)
    (s0 : RawSection) (he : cp.err = none)
    (hcm : ¬(line.head? = some ';' ∨ line.head? = some '#'))
    (hct : ¬(line.getLast? = some '\\'))
    (hne : trimSpace (cp.currentLine ++ line) ≠ [])
    (hhd : ¬((trimSpace (cp.currentLine ++ line)).head? = some '['))
    (hsec : currentSectionOf cp = some s0) :
    (∀ k v, splitOnce '=' (trimSpace (cp.currentLine ++ line)) = some (k, v) →
      trimSpace k ≠ [] →
      (parseLine cp line).err = none ∧
      (parseLine cp line).currentLine = [] ∧
      currentSectionOf (parseLine cp line) =
        some (addProperty s0 (trimSpace k) (trimSpace v)) ∧
      GetPropertyValues (addProperty s0 (trimSpace k) (trimSpace v))
          (trimSpace k) =
        GetPropertyValues s0 (trimSpace k) ++ [trimSpace v]) ∧
    (splitOnce '=' (trimSpace (cp.currentLine ++ line)) = none →
      (parseLine cp line).err = some (ParseErr.invalidProperty cp.numLines) ∧
      (parseLine cp line).config = cp.config) ∧
    (∀ k v, splitOnce '=' (trimSpace (cp.currentLine ++ line)) = some (k, v) →
      trimSpace k = [] →
      (parseLine cp line).err = some (ParseErr.invalidProperty cp.numLines) ∧
      (parseLine cp line).config = cp.config) := by
  have hred : parseLine cp line =
      parseProperty { cp with currentLine := ([] : Str) }
        (trimSpace (cp.currentLine ++ line)) := by
    obtain ⟨cfg, cur, buf, e0, n⟩ := cp
    dsimp only at he hcm hct hne hhd ⊢
    subst he
    unfold parseLine
    dsimp only
    rw [if_neg hcm, if_neg hct, if_neg hne, if_neg hhd]
  refine ⟨?_, ?_, ?_⟩
  · intro k v hsp hk
    have hk0 : k ≠ [] := fun h0 => hk (by rw [h0]; rfl)
    have hcur1 : currentSectionOf { cp with currentLine := ([] : Str) } =
        some s0 := hsec
    rw [hred]
    unfold parseProperty
    rw [hsp]
    dsimp only
    rw [if_neg hk0]
    obtain ⟨ha, hbx, hcx⟩ :=
      addToCurrent_spec { cp with currentLine := ([] : Str) } s0
        (trimSpace k) (trimSpace v) hcur1
    exact ⟨by rw [ha]; exact he, by rw [hbx], hcx,
      getPropertyValues_addProperty s0 (trimSpace k) (trimSpace v)⟩
  · intro hsp
    rw [hred]
    unfold parseProperty
    rw [hsp]
    dsimp only
    exact ⟨rfl, rfl⟩
  · intro k v hsp hk
    have hk0 : k = [] := by
      rcases splitOnce_head_cases '=' _ k v hsp with h0 | hh
      · exact h0
      · exfalso
        cases hL : (trimSpace (cp.currentLine ++ line)).head? with
        | none =>
          rw [List.head?_eq_none_iff] at hL
          exact hne hL
        | some c =>
          rw [hL] at hh
          exact absurd hk
            (trimSpace_ne_nil_of_head k c hh
              (head?_trimSpace_false _ c hL))
    subst hk0
    rw [hred]
    unfold parseProperty
    rw [hsp]
    dsimp only
    rw [if_pos rfl]
    exact ⟨rfl, rfl⟩

/-- Witness for claim C5 at three concrete logical lines: a valid
property, a line without `=`, and a line with an empty key. -/
theorem property_line_spec_witness :
    ((parseLine NewRawConfigParser (chars "k=v")).err = none ∧
     (parseLine NewRawConfigParser (chars "k=v")).currentLine = [] ∧
     currentSectionOf (parseLine NewRawConfigParser (chars "k=v")) =
       some (addProperty [] (trimSpace (chars "k")) (trimSpace (chars "v"))) ∧
     GetPropertyValues
         (addProperty [] (trimSpace (chars "k")) (trimSpace (chars "v")))
         (trimSpace (chars "k")) =
       GetPropertyValues [] (trimSpace (chars "k")) ++
         [trimSpace (chars "v")]) ∧
    ((parseLine NewRawConfigParser (chars "key")).err =
       some (ParseErr.invalidProperty 0) ∧
     (parseLine NewRawConfigParser (chars "key")).config =
       NewRawConfigParser.config) ∧
    ((parseLine NewRawConfigParser (chars "=v")).err =
       some (ParseErr.invalidProperty 0) ∧
     (parseLine NewRawConfigParser (chars "=v")).config =
       NewRawConfigParser.config) :=
  ⟨(property_line_spec NewRawConfigParser (chars "k=v") [] rfl (by decide)
      (by decide) (by decide) (by decide) rfl).1 (chars "k") (chars "v") rfl
      (by decide),
   (property_line_spec NewRawConfigParser (chars "key") [] rfl (by decide)
      (by decide) (by decide) (by decide) rfl).2.1 rfl,
   (property_line_spec NewRawConfigParser (chars "=v") [] rfl (by decide)
      (by decide) (by decide) (by decide) rfl).2.2 [] (chars "v") rfl rfl⟩

/-
  Further branch lemmas for `parseLine`, used by the enumeration-order
  refinement.
-/

theorem parseLine_comment_err (cp : RawConfigParser) (l : Str)
    (he : cp.err = none)
    (hcm : l.head? = some ';' ∨ l.head? = some '#')
    (hb : cp.currentLine ≠ []) :
    parseLine cp l =
      { cp with err := some (.continuationIntoComment cp.numLines) } := by
  obtain ⟨cfg, cur, buf, e0, n⟩ := cp
  dsimp only at he hb ⊢
  subst he
  unfold parseLine
  dsimp only
  rw [if_pos hcm, if_pos hb]

theorem parseLine_blank (cp : RawConfigParser) (l : Str)
    (he : cp.err = none)
    (hcm : ¬(l.head? = some ';' ∨ l.head? = some '#'))
    (hct : ¬(l.getLast? = some '\\'))
    (hbl : trimSpace (cp.currentLine ++ l) = []) :
    parseLine cp l = { cp with currentLine := ([] : Str) } := by
  obtain ⟨cfg, cur, buf, e0, n⟩ := cp
  dsimp only at he hbl ⊢
  subst he
  unfold parseLine
  dsimp only
  rw [if_neg hcm, if_neg hct, if_pos hbl]

theorem parseLine_to_header (cp : RawConfigParser) (l : Str)
    (he : cp.err = none)
    (hcm : ¬(l.head? = some ';' ∨ l.head? = some '#'))
    (hct : ¬(l.getLast? = some '\\'))
    (hbl : trimSpace (cp.currentLine ++ l) ≠ [])
    (hhd : (trimSpace (cp.currentLine ++ l)).head? = some '[') :
    parseLine cp l =
      parseSectionHeader { cp with currentLine := ([] : Str) }
        (trimSpace (cp.currentLine ++ l)) := by
  obtain ⟨cfg, cur, buf, e0, n⟩ := cp
  dsimp only at he hbl hhd ⊢
  subst he
  unfold parseLine
  dsimp only
  rw [if_neg hcm, if_neg hct, if_neg hbl, if_pos hhd]

theorem parseLine_to_property (cp : RawConfigParser) (l : Str)
    (he : cp.err = none)
    (hcm : ¬(l.head? = some ';' ∨ l.head? = some '#'))
    (hct : ¬(l.getLast? = some '\\'))
    (hbl : trimSpace (cp.currentLine ++ l) ≠ [])
    (hhd : ¬((trimSpace (cp.currentLine ++ l)).head? = some '[')) :
    parseLine cp l =
      parseProperty { cp with currentLine := ([] : Str) }
        (trimSpace (cp.currentLine ++ l)) := by
  obtain ⟨cfg, cur, buf, e0, n⟩ := cp
  dsimp only at he hbl hhd ⊢
  subst he
  unfold parseLine
  dsimp only
  rw [if_neg hcm, if_neg hct, if_neg hbl, if_neg hhd]

theorem addToCurrent_names (cp : RawConfigParser) (p v : Str) :
    (addToCurrent cp p v).config.sectionNames = cp.config.sectionNames ∧
    (addToCurrent cp p v).currentLine = cp.currentLine := by
  unfold addToCurrent
  cases cp.currentSection <;> exact ⟨rfl, rfl⟩

/-- One parsed physical line preserves the relation between the built
section-name sequence and the specification-side recomputation. -/
theorem parseLine_names_step (cp : RawConfigParser) (l : Str)
    (rest : List Str) (he : cp.err = none)
    (h1 : (parseLine cp l).err = none) :
    (parseLine cp l).config.sectionNames ++
        ((assembleLines (parseLine cp l).currentLine rest).filterMap
          headerNameOf) =
      cp.config.sectionNames ++
        ((assembleLines cp.currentLine (l :: rest)).filterMap
          headerNameOf) := by
  by_cases hcm : l.head? = some ';' ∨ l.head? = some '#'
  · by_cases hb : cp.currentLine = []
    · obtain ⟨c, cs, rfl⟩ : ∃ c cs, l = c :: cs := by
        cases l with
        | nil => simp at hcm
        | cons c cs => exact ⟨c, cs, rfl⟩
      have hcc2 : c = ';' ∨ c = '#' := by simpa using hcm
      rw [parseLine_comment cp c cs he hb hcc2]
      rw [assembleLines, if_pos hcm]
    · rw [parseLine_comment_err cp l he hcm hb] at h1
      simp at h1
  · by_cases hct : l.getLast? = some '\\'
    · rw [parseLine_continuation cp l he hcm hct]
      rw [assembleLines, if_neg hcm, if_pos hct]
    · by_cases hbl : trimSpace (cp.currentLine ++ l) = []
      · rw [parseLine_blank cp l he hcm hct hbl]
        rw [assembleLines, if_neg hcm, if_neg hct, hbl]
        simp [List.filterMap_cons, headerNameOf]
      · by_cases hhd : (trimSpace (cp.currentLine ++ l)).head? = some '['
        · rw [parseLine_to_header cp l he hcm hct hbl hhd] at h1 ⊢
          obtain ⟨t, hT⟩ : ∃ t, trimSpace (cp.currentLine ++ l) = '[' :: t :=
            by
            cases hL : trimSpace (cp.currentLine ++ l) with
            | nil => exact absurd hL hbl
            | cons a t =>
              rw [hL] at hhd
              simp only [List.head?_cons, Option.some.injEq] at hhd
              exact ⟨t, by rw [hhd]⟩
          rw [assembleLines, if_neg hcm, if_neg hct, hT]
          rw [hT] at h1
          unfold parseSectionHeader at h1 ⊢
          rw [if_neg (by simp)] at h1 ⊢
          dsimp only [List.tail_cons] at h1 ⊢
          cases hsp : splitOnce ']' t with
          | none =>
            rw [hsp] at h1 <;> simp at h1
          | some nr =>
            obtain ⟨name, r⟩ := nr
            rw [hsp] at h1 <;> dsimp only at h1 ⊢
            by_cases hr : r = []
            · subst hr
              rw [if_neg (by simp)] at h1 ⊢
              unfold addSection at h1 ⊢
              dsimp only at h1 ⊢
              cases hlk : lookupAssoc cp.config.sections name with
              | some s1 =>
                rw [hlk] at h1 <;> simp at h1
              | none =>
                dsimp only
                rw [List.filterMap_cons]
                rw [show headerNameOf ('[' :: t) = some name from by
                  unfold headerNameOf
                  rw [if_pos (by simp), List.tail_cons, hsp]]
                simp
            · rw [if_pos hr] at h1 <;> simp at h1
        · rw [parseLine_to_property cp l he hcm hct hbl hhd] at h1 ⊢
          rw [assembleLines, if_neg hcm, if_neg hct]
          rw [List.filterMap_cons]
          rw [show headerNameOf (trimSpace (cp.currentLine ++ l)) = none from
            by unfold headerNameOf; rw [if_neg hhd]]
          unfold parseProperty at h1 ⊢
          cases hsp : splitOnce '=' (trimSpace (cp.currentLine ++ l)) with
          | none =>
            rw [hsp] at h1 <;> simp at h1
          | some kv =>
            obtain ⟨k, v⟩ := kv
            rw [hsp] at h1 <;> dsimp only at h1 ⊢
            by_cases hk : k = []
            · rw [if_pos hk] at h1 <;> simp at h1
            · rw [if_neg hk]
              obtain ⟨hn1, hn2⟩ := addToCurrent_names
                { cp with currentLine := ([] : Str) } (trimSpace k)
                (trimSpace v)
              rw [hn1, hn2]

/-- The scanner loop refines the two-phase recomputation of the declared
section names, for every accepted input. -/
theorem parseLines_names (ls : List Str) :
    ∀ cp : RawConfigParser, cp.err = none →
      (parseLines cp ls).2 = none →
      (parseLines cp ls).1.config.sectionNames =
        cp.config.sectionNames ++
          ((assembleLines cp.currentLine ls).filterMap headerNameOf) := by
  induction ls with
  | nil =>
    intro cp he h
    rw [parseLines] at h ⊢
    by_cases hb : cp.currentLine = []
    · rw [if_neg (fun hh => hh hb)]
      rw [assembleLines]
      simp
    · rw [if_pos hb] at h
      simp at h
  | cons l rest ih =>
    intro cp he h
    have hb : ({ cp with numLines := cp.numLines + 1 } :
        RawConfigParser).err = none := he
    rw [parseLines] at h ⊢
    cases herr : (parseLine { cp with numLines := cp.numLines + 1 } l).err
      with
    | some e =>
      rw [herr] at h <;> simp at h
    | none =>
      rw [herr] at h
      dsimp only at h ⊢
      rw [ih (parseLine { cp with numLines := cp.numLines + 1 } l) herr h]
      exact parseLine_names_step { cp with numLines := cp.numLines + 1 } l
        rest hb herr

/-- Claim C8: for every input accepted by a parse pass, `Sections()` of
the finished document equals the sequence of section names in the order
their headers appear in the input, as recomputed by the two-phase
specification-side function (assemble logical lines, then list the
header names) — independent of the internal map, which is only used for
duplicate detection and lookup. -/
theorem sections_enumeration_order (ls : List Str)
    (h : (Parse NewRawConfigParser ls).2 = none) :
    Sections (Parse NewRawConfigParser ls).1.config =
      sectionHeaderSequence ls := by
  have hP : Parse NewRawConfigParser ls = parseLines NewRawConfigParser ls :=
    rfl
  rw [hP] at h ⊢
  unfold Sections sectionHeaderSequence
  rw [parseLines_names ls NewRawConfigParser rfl h]
  rfl

/-- Witness for claim C8: a concrete accepted input whose section names
come out in input order, not in lexicographic or map order. -/
theorem sections_enumeration_order_witness :
    (Parse NewRawConfigParser [chars "[b]", chars "x=1", chars "[a]"]).2 =
      none ∧
    Sections (Parse NewRawConfigParser
        [chars "[b]", chars "x=1", chars "[a]"]).1.config =
      sectionHeaderSequence [chars "[b]", chars "x=1", chars "[a]"] :=
  ⟨rfl, sections_enumeration_order [chars "[b]", chars "x=1", chars "[a]"]
    rfl⟩

/-
  Lemmas about `Decode`.
-/

theorem decodeValues_ok_append {σ ε : Type} (f : Str → σ → Except ε σ)
    (vs1 vs2 : List Str) (s t : σ) (h : decodeValues f vs1 s = (t, none)) :
    decodeValues f (vs1 ++ vs2) s = decodeValues f vs2 t := by
  induction vs1 generalizing s with
  | nil =>
    simp only [decodeValues, Prod.mk.injEq] at h
    obtain ⟨h1, -⟩ := h
    subst h1
    rfl
  | cons v vs ih =>
    simp only [decodeValues, List.cons_append] at h ⊢
    cases hf : f v s with
    | error e => rw [hf] at h <;> simp at h
    | ok s1 =>
      rw [hf] at h
      dsimp only at h ⊢
      exact ih s1 h

theorem decodeGo_ok_append {σ ε : Type} (dos : DecodeOptionSet σ ε)
    (ps qs : List Str) (sec : RawSection) (s t : σ)
    (h : decodeGo dos ps sec s = (t, none)) :
    decodeGo dos (ps ++ qs) sec s = decodeGo dos qs sec t := by
  induction ps generalizing s with
  | nil =>
    simp only [decodeGo, Prod.mk.injEq] at h
    obtain ⟨h1, -⟩ := h
    subst h1
    rfl
  | cons p ps ih =>
    simp only [decodeGo, List.cons_append] at h ⊢
    cases hlk : lookupAssoc dos p with
    | none => rw [hlk] at h <;> simp at h
    | some opt =>
      rw [hlk] at h
      dsimp only at h ⊢
      by_cases hu : opt.kind = DecodeOptionKind.uniqueOption ∧
          (GetPropertyValues sec p).length ≠ 1
      · rw [if_pos hu] at h <;> simp at h
      · rw [if_neg hu] at h ⊢
        cases hdv : decodeValues opt.parse (GetPropertyValues sec p) s with
        | mk s1 o =>
          cases o with
          | some e => rw [hdv] at h <;> simp at h
          | none =>
            rw [hdv] at h
            dsimp only at h ⊢
            exact ih s1 h

theorem decodeGo_ok_sound {σ ε : Type} (dos : DecodeOptionSet σ ε)
    (ps : List Str) (sec : RawSection) :
    ∀ s : σ, (decodeGo dos ps sec s).2 = none →
      ∀ p, p ∈ ps → ∃ opt, lookupAssoc dos p = some opt ∧
        (opt.kind = DecodeOptionKind.uniqueOption →
          (GetPropertyValues sec p).length = 1) := by
  induction ps with
  | nil =>
    intro s h p hp
    simp at hp
  | cons q ps ih =>
    intro s h p hp
    simp only [decodeGo] at h
    cases hlk : lookupAssoc dos q with
    | none => rw [hlk] at h <;> simp at h
    | some opt =>
      rw [hlk] at h
      dsimp only at h
      by_cases hu : opt.kind = DecodeOptionKind.uniqueOption ∧
          (GetPropertyValues sec q).length ≠ 1
      · rw [if_pos hu] at h <;> simp at h
      · rw [if_neg hu] at h
        cases hdv : decodeValues opt.parse (GetPropertyValues sec q) s with
        | mk s1 o =>
          cases o with
          | some e => rw [hdv] at h <;> simp at h
          | none =>
            rw [hdv] at h
            dsimp only at h
            rcases List.mem_cons.mp hp with rfl | hp2
            · refine ⟨opt, hlk, ?_⟩
              intro hk
              by_contra hlen
              exact hu ⟨hk, hlen⟩
            · exact ih s1 h p hp2

/-- Claim C9: `Decode` over a table and a section (1) succeeds only when
every property present in the section has a table entry and every
unique-rule property has exactly one recorded value, (2) fails whenever
some property has no table entry, (3) fails whenever some unique-rule
property has more than one recorded value, and (4) feeds values to the
conversion routine in recorded order and, at the first conversion
failure, aborts with a wrapped error naming the offending property. -/
theorem decode_error_model {σ ε : Type} (dos : DecodeOptionSet σ ε)
    (sec : RawSection) (s : σ) :
    ((Decode dos sec s).2 = none →
      ∀ p, p ∈ Properties sec → ∃ opt, lookupAssoc dos p = some opt ∧
        (opt.kind = DecodeOptionKind.uniqueOption →
          (GetPropertyValues sec p).length = 1)) ∧
    (∀ p, p ∈ Properties sec → lookupAssoc dos p = none →
      ((Decode dos sec s).2).isSome = true) ∧
    (∀ p opt, p ∈ Properties sec → lookupAssoc dos p = some opt →
      opt.kind = DecodeOptionKind.uniqueOption →
      1 < (GetPropertyValues sec p).length →
      ((Decode dos sec s).2).isSome = true) ∧
    (∀ pre p post opt s1 vs1 v vs2 t e,
      Properties sec = pre ++ p :: post →
      decodeGo dos pre sec s = (s1, none) →
      lookupAssoc dos p = some opt →
      ¬(opt.kind = DecodeOptionKind.uniqueOption ∧
        (GetPropertyValues sec p).length ≠ 1) →
      GetPropertyValues sec p = vs1 ++ v :: vs2 →
      decodeValues opt.parse vs1 s1 = (t, none) →
      opt.parse v t = Except.error e →
      (Decode dos sec s).2 = some (DecodeErr.parseFailure p e)) := by
  refine ⟨?_, ?_, ?_, ?_⟩
  · intro h p hp
    exact decodeGo_ok_sound dos (Properties sec) sec s h p hp
  · intro p hp hlk
    cases ho : (Decode dos sec s).2 with
    | some e => rfl
    | none =>
      obtain ⟨opt, hopt, -⟩ :=
        decodeGo_ok_sound dos (Properties sec) sec s ho p hp
      rw [hlk] at hopt
      simp at hopt
  · intro p opt hp hlk hk hlen
    cases ho : (Decode dos sec s).2 with
    | some e => rfl
    | none =>
      obtain ⟨opt2, hopt2, hu2⟩ :=
        decodeGo_ok_sound dos (Properties sec) sec s ho p hp
      rw [hlk] at hopt2
      simp only [Option.some.injEq] at hopt2
      subst hopt2
      have := hu2 hk
      omega
  · intro pre p post opt s1 vs1 v vs2 t e hPr hpre hlk hu hvals hdv1 hpe
    unfold Decode
    rw [hPr]
    rw [decodeGo_ok_append dos pre (p :: post) sec s s1 hpre]
    simp only [decodeGo]
    rw [hlk]
    dsimp only
    rw [if_neg hu]
    have hfail :
        decodeValues opt.parse (GetPropertyValues sec p) s1 = (t, some e) := by
      rw [hvals]
      rw [decodeValues_ok_append opt.parse vs1 (v :: vs2) s1 t hdv1]
      simp only [decodeValues]
      rw [hpe]
    rw [hfail]

/-- Witness for claim C9 at concrete tables and sections over `Nat`
destinations: a missing table entry, a repeated unique property, a
failing conversion routine, and a fully succeeding decode. -/
theorem decode_error_model_witness :
    (∃ opt, lookupAssoc
        [(chars "a",
          (⟨DecodeOptionKind.uniqueOption, [], fun _ s => Except.ok (s + 1)⟩ :
            DecodeOption Nat Nat))] (chars "a") = some opt ∧
      (opt.kind = DecodeOptionKind.uniqueOption →
        (GetPropertyValues [(chars "a", [chars "v"])] (chars "a")).length =
          1)) ∧
    ((Decode ([] : DecodeOptionSet Nat Nat) [(chars "a", [chars "v"])]
        0).2).isSome = true ∧
    ((Decode
        [(chars "a",
          (⟨DecodeOptionKind.uniqueOption, [], fun _ s => Except.ok s⟩ :
            DecodeOption Nat Nat))]
        [(chars "a", [chars "v", chars "w"])] 0).2).isSome = true ∧
    (Decode
        [(chars "a",
          (⟨DecodeOptionKind.multiOption, [], fun _ _ => Except.error 7⟩ :
            DecodeOption Nat Nat))]
        [(chars "a", [chars "v"])] 0).2 =
      some (DecodeErr.parseFailure (chars "a") 7) :=
  ⟨(decode_error_model
      [(chars "a",
        (⟨DecodeOptionKind.uniqueOption, [], fun _ s => Except.ok (s + 1)⟩ :
          DecodeOption Nat Nat))]
      [(chars "a", [chars "v"])] 0).1 rfl (chars "a") (by decide),
   (decode_error_model ([] : DecodeOptionSet Nat Nat)
      [(chars "a", [chars "v"])] 0).2.1 (chars "a") (by decide) rfl,
   (decode_error_model
      [(chars "a",
        (⟨DecodeOptionKind.uniqueOption, [], fun _ s => Except.ok s⟩ :
          DecodeOption Nat Nat))]
      [(chars "a", [chars "v", chars "w"])] 0).2.2.1 (chars "a") _
      (by decide) rfl rfl (by decide),
   (decode_error_model
      [(chars "a",
        (⟨DecodeOptionKind.multiOption, [], fun _ _ => Except.error 7⟩ :
          DecodeOption Nat Nat))]
      [(chars "a", [chars "v"])] 0).2.2.2 [] (chars "a") [] _ 0 [] (chars "v")
      [] 0 7 rfl rfl rfl (by simp) rfl rfl rfl⟩

end Goini
